import Mathlib

/-!
Verification of the name-resolution and reconciliation core of the
religion-india repository (state/district fuzzy matching, alias tables,
code-book loading, merge/dedup of record sets, and the date-coding pass).

The Python sources are shallowly embedded:
* text is `String`/`List Char`; Python `str.lower` is modelled for ASCII
  (the data processed by the scripts is ASCII names and digit codes);
* `difflib.SequenceMatcher.ratio` is embedded exactly (recursive longest
  matching block with the lowest-index tie-break) for inputs below the
  autojunk length (200), which covers every name compared by the scripts;
  scores are exact rationals built with `mkRat`;
* Python dicts are association lists in insertion order;
* fallible code (`astype(int)` on a non-numeric column, `Path / None`)
  returns `Except`/`Option`.
-/

set_option maxRecDepth 40000

namespace ReligionIndia

/-! ## Generic text helpers (Python `str` operations) -/

/-- Python `str.lower`, modelled on ASCII letters (`A`-`Z` map to `a`-`z`,
every other character is left unchanged). -/
def lowerChar (c : Char) : Char :=
  if h : 65 ≤ c.toNat ∧ c.toNat ≤ 90 then
    ⟨c.val + 32, by
      have h2 : c.val.toNat ≤ 90 := h.2
      have h3 : (c.val + 32).toNat = c.val.toNat + 32 := by
        rw [UInt32.toNat_add]
        have h32 : (32 : UInt32).toNat = 32 := rfl
        rw [h32]
        have hs : UInt32.size = 4294967296 := rfl
        exact Nat.mod_eq_of_lt (by omega)
      rw [UInt32.isValidChar, h3]
      exact Or.inl (by omega)⟩
  else c

def lowerStr (l : List Char) : List Char := l.map lowerChar

/-- Whitespace recognised by Python `str.split()` / `str.strip()`
(space, tab, newline, carriage return, vertical tab, form feed). -/
def isWsChar (c : Char) : Bool :=
  c.toNat = 32 || c.toNat = 9 || c.toNat = 10 || c.toNat = 13 ||
  c.toNat = 11 || c.toNat = 12

/-- Characters kept by the regex `[^a-z0-9]` substitution: ASCII lower-case
letters and digits. -/
def isStrictKeep (c : Char) : Bool :=
  (97 ≤ c.toNat && c.toNat ≤ 122) || (48 ≤ c.toNat && c.toNat ≤ 57)

/-- ASCII letter or digit (used by the spec-side canonicalizer). -/
def isAsciiAlnum (c : Char) : Bool :=
  (65 ≤ c.toNat && c.toNat ≤ 90) || (97 ≤ c.toNat && c.toNat ≤ 122) ||
  (48 ≤ c.toNat && c.toNat ≤ 57)

/-- Python `s.replace("&", "and")`. -/
def ampReplace : List Char → List Char
  | [] => []
  | c :: cs => (if c = '&' then ['a', 'n', 'd'] else [c]) ++ ampReplace cs

/-- Worker for Python `str.split()`: `acc` is the reversed current word. -/
def splitWsGo (acc : List Char) : List Char → List (List Char)
  | [] => if acc.isEmpty then [] else [acc.reverse]
  | c :: cs =>
    if isWsChar c then
      if acc.isEmpty then splitWsGo [] cs else acc.reverse :: splitWsGo [] cs
    else splitWsGo (c :: acc) cs

/-- Python `str.split()` with no separator: whitespace runs split,
empty words discarded. -/
def splitWs (l : List Char) : List (List Char) := splitWsGo [] l

/-- Python `" ".join(words)`. -/
def joinWords : List (List Char) → List Char
  | [] => []
  | w :: ws =>
    match ws with
    | [] => w
    | _ :: _ => w ++ ' ' :: joinWords ws

/-- Python `str.strip()`. -/
def trimWs (l : List Char) : List Char :=
  ((l.dropWhile isWsChar).reverse.dropWhile isWsChar).reverse

def strTrim (s : String) : String := ⟨trimWs s.data⟩

def isDigitChar (c : Char) : Bool := 48 ≤ c.toNat && c.toNat ≤ 57

/-- Python `str.isdigit` (restricted to ASCII digits): nonempty and all digits. -/
def isDigits (l : List Char) : Bool := !l.isEmpty && l.all isDigitChar

def digitsToNat (l : List Char) : Nat :=
  l.foldl (fun a c => a * 10 + (c.toNat - 48)) 0

/-- Tail of a Python decimal digit run: digits, with a single underscore
allowed only between two digits (`int("1_0")` is 10, while `int("1__0")`,
`int("1_")` and `int("_1")` raise). -/
def pyDigitRest : List Char → Bool
  | [] => true
  | '_' :: [] => false
  | '_' :: d :: ds => isDigitChar d && pyDigitRest ds
  | c :: cs => isDigitChar c && pyDigitRest cs

/-- Python decimal `digitpart`: a digit followed by digits with optional
single underscores between them. -/
def pyDigitPart : List Char → Bool
  | [] => false
  | c :: cs => isDigitChar c && pyDigitRest cs

def stripUnderscores (l : List Char) : List Char := l.filter fun c => !(c = '_')

/-- Python `int()` on a base-10 string (as `astype(int)` applies it to a
string column): surrounding whitespace stripped, an optional single `+` or
`-` sign, then a digit run with single underscores allowed between digits;
anything else raises `ValueError`, modelled as `none`. -/
def parsePyInt? (s : String) : Option Int :=
  match trimWs s.data with
  | '-' :: rest =>
    if pyDigitPart rest then some (-(digitsToNat (stripUnderscores rest) : Int)) else none
  | '+' :: rest =>
    if pyDigitPart rest then some (digitsToNat (stripUnderscores rest)) else none
  | rest => if pyDigitPart rest then some (digitsToNat (stripUnderscores rest)) else none

/-- Python `f"{n:02}"` for a non-negative integer. -/
def fmt02 (n : Nat) : String := if n < 10 then "0" ++ toString n else toString n

/-- Python `f"{n:02}"` for an integer: the zero-padded width counts the
sign, so every negative value is just `-` followed by its digits
(`f"{-1:02}"` is `"-1"`). -/
def fmt02i (n : Int) : String :=
  if 0 ≤ n then fmt02 n.toNat else "-" ++ toString (-n).toNat

/-! ## difflib.SequenceMatcher (no junk: inputs are far below the autojunk
length of 200) -/

/-- Length of the matching run of `a` and `b` starting at their heads. -/
def commonRunLen : List Char → List Char → Nat
  | a :: as, b :: bs => if a = b then commonRunLen as bs + 1 else 0
  | _, _ => 0

/-- All start positions `(i, j)` in lexicographic order, mirroring the scan
order of `find_longest_match`. -/
def lmCandidates (la lb : Nat) : List (Nat × Nat) :=
  (List.range la).flatMap fun i => (List.range lb).map fun j => (i, j)

/-- `SequenceMatcher.find_longest_match` over whole lists: the longest
matching block `(i, j, size)`, ties resolved to the smallest `i`, then the
smallest `j` (difflib's scan updates only on a strictly larger size). -/
def longestMatch (a b : List Char) : Nat × Nat × Nat :=
  (lmCandidates a.length b.length).foldl
    (fun best ij =>
      let k := commonRunLen (a.drop ij.1) (b.drop ij.2)
      if best.2.2 < k then (ij.1, ij.2, k) else best)
    (0, 0, 0)

/-- Total size of all matching blocks (`get_matching_blocks`): recursively
take the longest match and recurse on both sides.  `fuel` only bounds the
recursion depth; `a.length + 1` always suffices since the `a`-side strictly
shrinks at every recursive call. -/
def matchTotalF : Nat → List Char → List Char → Nat
  | 0, _, _ => 0
  | fuel + 1, a, b =>
    let t := longestMatch a b
    if t.2.2 = 0 then 0
    else
      matchTotalF fuel (a.take t.1) (b.take t.2.1) + t.2.2 +
      matchTotalF fuel (a.drop (t.1 + t.2.2)) (b.drop (t.2.1 + t.2.2))

def matchTotal (a b : List Char) : Nat := matchTotalF (a.length + 1) a b

/-- `SequenceMatcher(None, a, b).ratio()`: `2*M / (len(a)+len(b))`,
and `1.0` when both inputs are empty. -/
def ratioChars (a b : List Char) : ℚ :=
  if a.length + b.length = 0 then 1 else mkRat (2 * matchTotal a b) (a.length + b.length)

def ratioStr (s t : String) : ℚ := ratioChars s.data t.data

/-! ## Python dicts as association lists (insertion order) -/

variable {κ ν : Type} [DecidableEq κ]

/-- `d.get(k)` / `d[k]` lookup. -/
def alookup (m : List (κ × ν)) (k : κ) : Option ν :=
  (m.find? fun p => decide (p.1 = k)).map (·.2)

/-- `d[k] = v`: overwrite in place, or append a new entry. -/
def dSet (m : List (κ × ν)) (k : κ) (v : ν) : List (κ × ν) :=
  if m.any (fun p => decide (p.1 = k)) then
    m.map fun p => if p.1 = k then (k, v) else p
  else m ++ [(k, v)]

/-- `d.setdefault(k, v)` used only for its insertion effect. -/
def setdefault (m : List (κ × ν)) (k : κ) (v : ν) : List (κ × ν) :=
  if (m.find? fun p => decide (p.1 = k)).isSome then m else m ++ [(k, v)]

/-- `d.setdefault(k, []).append(v)`. -/
def appendAt (m : List (κ × List ν)) (k : κ) (v : ν) : List (κ × List ν) :=
  if m.any (fun p => decide (p.1 = k)) then
    m.map fun p => if p.1 = k then (p.1, p.2 ++ [v]) else p
  else m ++ [(k, [v])]

/-! ## Shared fuzzy-selection loop

`best_fuzzy_match` (rename_to_codes.py) and `best_match`
(missing-districts.py) run the identical loop: scan the pool, keep the
candidate whose score is strictly greater than the best so far. -/

def scanBestGo (q : String) (acc : Option String × ℚ) : List String → Option String × ℚ
  | [] => acc
  | c :: cs =>
    let sc := ratioStr q c
    scanBestGo q (if acc.2 < sc then (some c, sc) else acc) cs

def scanBest (q : String) (pool : List String) : Option String × ℚ :=
  scanBestGo q (none, 0) pool

/-- Python `max(pool, key=f, default=None)`: first maximiser in iteration
order (`max` keeps the incumbent unless the new key is strictly greater). -/
def firstMaxBy {α : Type} (f : α → ℚ) : List α → Option α
  | [] => none
  | x :: xs => some (xs.foldl (fun b y => if f b < f y then y else b) x)

/-- A reference code-book row as parsed from `state-district-code.csv`
(`dtype=str`, missing values filled with `""`). -/
structure CodeRow where
  state_name : String
  district_name : String
  state_code : String
  district_code : String
deriving DecidableEq

/-! ## rename_to_codes.py -/

namespace RenameToCodes

/-- The hard-coded `ALIASES` table (normalised state name → state code). -/
def ALIASES : List (String × String) :=
  [("andamanandnicobar", "35"),
   ("dadraandnagarhavelianddamananddiu", "26"),
   ("delhi", "07"),
   ("nationalcapitalterritoryofdelhi", "07"),
   ("lakshadweep", "31"),
   ("ladakh", "37"),
   ("andhrapradesh", "28"),
   ("andrapradesh", "28"),
   ("gujarat", "24"),
   ("jammuandkashmir", "01"),
   ("uttarakhand", "05"),
   ("uttrakhand", "05"),
   ("puducherry", "34")]

/-- `normalise`: `re.sub(r'[^a-z0-9]', '', name.lower())`. -/
def normalise (s : String) : String := ⟨(lowerStr s.data).filter isStrictKeep⟩

/-- `best_fuzzy_match(key, candidates, threshold)`: the loop keeps the
strictly best-scoring candidate; the result is returned only when the best
score reaches the threshold. -/
def best_fuzzy_match (key : String) (candidates : List String) (threshold : ℚ) :
    Option String :=
  let bs := scanBest key candidates
  if threshold ≤ bs.2 then bs.1 else none

/-- One row of `load_codes` after `astype(int)` + zero-padding of both code
columns; `none` models the `ValueError` raised by `astype(int)` on a field
that is not a valid Python integer literal. -/
def padRow? (r : CodeRow) : Option CodeRow :=
  match parsePyInt? r.state_code, parsePyInt? r.district_code with
  | some sc, some dc =>
    some { r with state_code := fmt02i sc, district_code := fmt02i dc }
  | _, _ => none

/-- Builds `state_code_map` (via `setdefault`: first occurrence wins) and
`district_code_map` (via plain dict assignment: last occurrence wins) from
the padded rows. -/
def buildMaps (prs : List CodeRow) :
    List (String × String) × List ((String × String) × String) :=
  prs.foldl
    (fun maps r =>
      (setdefault maps.1 (normalise r.state_name) r.state_code,
       dSet maps.2 (r.state_code, normalise r.district_name) r.district_code))
    ([], [])

/-- `astype(int)` + zero-padding over the whole frame: fails when any row
fails. -/
def padRows? : List CodeRow → Option (List CodeRow)
  | [] => some []
  | r :: rs =>
    match padRow? r, padRows? rs with
    | some pr, some prs => some (pr :: prs)
    | _, _ => none

/-- `load_codes`: `astype(int)` on the code columns (fatal on a non-numeric
value), then the two maps. -/
def load_codes (rows : List CodeRow) :
    Except String (List (String × String) × List ((String × String) × String)) :=
  match padRows? rows with
  | none => .error "invalid literal for int()"
  | some prs => .ok (buildMaps prs)

/-- State resolution of `rename_everything` (lines 71-79): alias lookup
first; on a falsy result, `best_fuzzy_match` against the code-book state
keys (default threshold 0.8) followed by a map lookup; a falsy final result
means unmatched (`none`). -/
def resolveState (stateKey : String) (stateMap : List (String × String)) :
    Option String :=
  let fuzzy : Option String :=
    match best_fuzzy_match stateKey (stateMap.map (·.1)) (mkRat 4 5) with
    | some k => if k = "" then none else alookup stateMap k
    | none => none
  let code : Option String :=
    match alookup ALIASES stateKey with
    | some c => if c = "" then fuzzy else some c
    | none => fuzzy
  match code with
  | some c => if c = "" then none else some c
  | none => none

/-- District-file handling inside one matched state folder: each CSV stem is
either renamed to its district code or reported missing. -/
inductive StateDirResult where
  | unmatched
  | matched (code : String) (renamed : List (String × String)) (missing : List String)
deriving DecidableEq

/-- `rename_everything`, one state directory: resolve the state; when it is
unmatched the folder is reported and no district lookup happens; otherwise
every district CSV stem is looked up in `district_map`. -/
def renameStateDir (dirName : String) (files : List String)
    (stateMap : List (String × String))
    (districtMap : List ((String × String) × String)) : StateDirResult :=
  match resolveState (normalise dirName) stateMap with
  | none => .unmatched
  | some code =>
    let step := fun (acc : List (String × String) × List String) (f : String) =>
      match alookup districtMap (code, normalise f) with
      | some d => if d = "" then (acc.1, acc.2 ++ [f]) else (acc.1 ++ [(f, d)], acc.2)
      | none => (acc.1, acc.2 ++ [f])
    let r := files.foldl step ([], [])
    .matched code r.1 r.2

end RenameToCodes

/-! ## missing-districts.py -/

namespace MissingDistricts

/-- `SKIP_LIST`: `(state_code, normalised filename)` pairs never touched. -/
def SKIP_LIST : List (String × String) :=
  [("03", "sahibzadaajitsinghnagar"),
   ("29", "bangaloreurban"),
   ("22", "korea")]

/-- `ALIAS_TO_CODE`: `(state_code, normalised filename) → district_code`. -/
def ALIAS_TO_CODE : List ((String × String) × String) :=
  [(("17", "eastjaintiahills"), "07"),
   (("17", "westjaintiahills"), "07"),
   (("29", "mysore"), "20"),
   (("29", "mysuru"), "20"),
   (("27", "raigad"), "24"),
   (("19", "coochbehar"), "03"),
   (("19", "howrah"), "16"),
   (("19", "purbabardhaman"), "09"),
   (("34", "karaikal"), "02"),
   (("34", "mahe"), "03")]

/-- `norm`: `re.sub(r'[^a-z0-9]', '', txt.lower())` (same body as
`normalise` in rename_to_codes.py). -/
def norm (s : String) : String := ⟨(lowerStr s.data).filter isStrictKeep⟩

/-- `best_match(name_norm, pool_norm, threshold)`: same loop as
`best_fuzzy_match`, but the rejected case still reports the best score. -/
def best_match (name : String) (pool : List String) (threshold : ℚ) :
    Option String × ℚ :=
  let bs := scanBest name pool
  if threshold ≤ bs.2 then bs else (none, bs.2)

/-- `append_csv`: rows of `src` are appended to `dest`, skipping any row
already present in `dest` (set of existing lines, computed once). -/
def append_csv (destRows srcRows : List String) : List String :=
  destRows ++ srcRows.filter (fun l => decide (l ∉ destRows))

/-- The `isdigit` mask of `load_codes`: both code fields are (stripped)
digit strings. -/
def rowDigits (r : CodeRow) : Bool :=
  isDigits (trimWs r.state_code.data) && isDigits (trimWs r.district_code.data)

/-- Zero-padded code of a row that passed the mask. -/
def padDigits (s : String) : String := fmt02 (digitsToNat (trimWs s.data))

/-- `load_codes`: drop rows failing the digit mask, pad the codes, and group
district tuples `(norm district_name, district_code, district_name)` by
state code (`by_state`). -/
def load_codes (rows : List CodeRow) :
    List (String × List (String × String × String)) :=
  (rows.filter rowDigits).foldl
    (fun bs r =>
      appendAt bs (padDigits r.state_code)
        (norm r.district_name, padDigits r.district_code, r.district_name))
    []

/-- Outcome of the per-file matching in `fix` (lines 116-136). -/
inductive FixOutcome where
  | skipped
  | aliased (code : String)
  | fuzzyMatched (code name : String) (score : ℚ)
  | unmatched
deriving DecidableEq

/-- Per-file resolution in `fix`: skip list, then alias table, then fuzzy
match against the state's pool. -/
def fixResolve (sCode n : String) (poolNorm : List String)
    (poolMap : List (String × String × String)) (threshold : ℚ) : FixOutcome :=
  if (sCode, n) ∈ SKIP_LIST then .skipped
  else
    match alookup ALIAS_TO_CODE (sCode, n) with
    | some d => .aliased d
    | none =>
      match best_match n poolNorm threshold with
      | (some b, sc) =>
        if b = "" then .unmatched
        else
          match alookup poolMap b with
          | some cn => .fuzzyMatched cn.1 cn.2 sc
          | none => .unmatched
      | (none, _) => .unmatched

end MissingDistricts

/-! ## district-match.py -/

namespace DistrictMatch

def STATE_FUZZY_THRESHOLD : ℚ := mkRat 4 5

def DISTRICT_FUZZY_THRESHOLD : ℚ := mkRat 7 10

/-- `ALIAS_MAP`: known state-name variants → canonical folder name. -/
def ALIAS_MAP : List (String × String) :=
  [("A&N Island", "Andaman and Nicobar"),
   ("Andra Pradesh", "Andhra Pradesh"),
   ("Uttrakhand", "Uttarakhand")]

/-- `canonical`: lower-case, `&` → `and`, collapse whitespace. -/
def canonical (s : String) : String := ⟨joinWords (splitWs (ampReplace (lowerStr s.data)))⟩

/-- `similarity(a, b)`: SequenceMatcher ratio of the canonical forms. -/
def similarity (a b : String) : ℚ := ratioStr (canonical a) (canonical b)

/-- State-folder resolution for one reference row (lines 78-89): alias map,
else exact folder-name hit, else the best fuzzy folder at threshold 0.80;
Python's falsy checks on the intermediate results are preserved. -/
def resolveStateFolder (stRaw : String) (present : List (String × List String)) :
    Option String :=
  let keys := present.map (·.1)
  let exact : Option String := if stRaw ∈ keys then some stRaw else none
  let fuzzy : Option String :=
    match firstMaxBy (fun s => similarity stRaw s) keys with
    | some b =>
      if b ≠ "" ∧ STATE_FUZZY_THRESHOLD ≤ similarity stRaw b then some b else none
    | none => none
  let viaAliasOrExact : Option String :=
    match alookup ALIAS_MAP stRaw with
    | some f => if f = "" then exact else some f
    | none => exact
  let final : Option String :=
    match viaAliasOrExact with
    | some f => if f = "" then fuzzy else some f
    | none => fuzzy
  match final with
  | some f => if f = "" then none else some f
  | none => none

/-- Status recorded for one reference row. -/
inductive RowStatus where
  | missingStateFolder
  | exactDistrict
  | closeMatch (file : String) (r : ℚ)
  | missingDistrict (file : String) (r : ℚ)
deriving DecidableEq

/-- Result of processing one reference row; `districtMatcherInvoked` records
whether the district-level similarity scan (`max` over the folder's files)
ran. -/
inductive RowResult where
  | blankSkipped
  | keyError
  | res (status : RowStatus) (districtMatcherInvoked : Bool)
deriving DecidableEq

/-- One iteration of the comparison loop (lines 71-134): strip both names,
skip blanks, resolve the state folder (alias → exact → fuzzy), and only
then look at the folder's district files. -/
def processRow (stRaw0 distRaw0 : String) (present : List (String × List String)) :
    RowResult :=
  let stRaw := strTrim stRaw0
  let distRaw := strTrim distRaw0
  if stRaw = "" ∨ distRaw = "" then .blankSkipped
  else
    match resolveStateFolder stRaw present with
    | none => .res .missingStateFolder false
    | some f =>
      match alookup present f with
      | none => .keyError
      | some available =>
        if distRaw ∈ available then .res .exactDistrict false
        else
          match firstMaxBy (fun d => similarity distRaw d) available with
          | some b =>
            let r := similarity distRaw b
            if DISTRICT_FUZZY_THRESHOLD ≤ r then .res (.closeMatch b r) true
            else .res (.missingDistrict b r) true
          | none => .res (.missingDistrict "" 0) false

end DistrictMatch

/-! ## merge_districts.py -/

namespace MergeDistricts

/-- A `districts_geonames.csv` record; the natural key is the whole triple. -/
structure GeoRow where
  state : String
  district : String
  geoname_id : String
deriving DecidableEq

/-- The duplicate-elimination loop (lines 50-65): each incoming record whose
key is already in the set (seeded from the existing rows and updated as rows
are added) is skipped, the rest are appended in order. -/
def mergeRows (existing incoming : List GeoRow) : List GeoRow :=
  incoming.foldl (fun acc r => if r ∈ acc then acc else acc ++ [r]) existing

end MergeDistricts

/-! ## coding-districts.py -/

namespace CodingDistricts

/-- `pad`: `f"{int(code):02}"`, `None` when `int()` raises. -/
def pad (code : String) : Option String := (parsePyInt? code).map fmt02i

/-- The `Auspicious_date` label. -/
inductive Label where
  | one
  | zero
  | missing
deriving DecidableEq

/-- One row of the master dates file after `to_iso_series`; `iso = none`
models an unparseable date (`None`/`NaT`, which is never in a date set). -/
structure DateRow where
  stateRaw : String
  districtRaw : String
  iso : Option String
deriving DecidableEq

/-- The district files on disk: `(state_code, district_code)` → the file's
date set; a pair not in the map has no file (`load_district_dates → None`). -/
def FileMap : Type := List ((String × String) × List String)

/-- Label for one row whose codes padded successfully, given the loaded
date set (or its absence). -/
def labelOf (files : FileMap) (st dt : String) (iso : Option String) : Label :=
  match alookup files (st, dt) with
  | none => .missing
  | some ds =>
    match iso with
    | some d => if d ∈ ds then .one else .zero
    | none => .zero

/-- The labelling loop of `process` (lines 106-118): per row, build the
path from the padded codes (a `None` code crashes with `TypeError`, modelled
as `.error`), label it, and count the rows whose district file is absent. -/
def processRows (files : FileMap) : List DateRow → Except String (List Label × Nat)
  | [] => .ok ([], 0)
  | r :: rs =>
    match pad r.stateRaw, pad r.districtRaw with
    | some st, some dt =>
      match processRows files rs with
      | .ok (ls, m) =>
        let l := labelOf files st dt r.iso
        .ok (l :: ls, if l = .missing then m + 1 else m)
      | .error e => .error e
    | _, _ => .error "TypeError: unsupported operand type for /"

/-- The date set the loop consults for a row: the file at the padded
`(state_code, district_code)` path, `none` when the file is absent (or when
a code fails to pad, in which case the loop has already crashed). -/
def rowFile (files : FileMap) (r : DateRow) : Option (List String) :=
  match pad r.stateRaw, pad r.districtRaw with
  | some st, some dt => alookup files (st, dt)
  | _, _ => none

/-- Whether the row's ISO date is present in a date set (`iso in dateset`;
an unparseable date is in no set). -/
def isoHit (r : DateRow) (ds : List String) : Bool :=
  match r.iso with
  | some d => decide (d ∈ ds)
  | none => false

end CodingDistricts

/-! ## Spec-side canonicalizer definitions (the spec's step list, used to
compare the spec's words against the source functions) -/

/-- Modelled from the spec's step list for the strict canonicalizer:
lower-case, replace `&` with `and`, then strip every character that is not
an ASCII letter or digit. -/
def specStrictCanon (s : String) : String :=
  ⟨(ampReplace (lowerStr s.data)).filter isAsciiAlnum⟩

/-- The strict canonicalizer as amended: lower-case, then strip every
character that is not an ASCII letter or digit (no ampersand step). -/
def specStrictNoAmp (s : String) : String :=
  ⟨(lowerStr s.data).filter isAsciiAlnum⟩

/-! ## Spec-side characterizations of the fuzzy-selection loop -/

/-- The best similarity score in a pool (`0` for an empty pool, matching the
loop's initial `best_score`). -/
def poolBest (q : String) (pool : List String) : ℚ :=
  (pool.map (ratioStr q)).foldr max 0

/-- The first candidate, in iteration order, attaining the pool's best
score. -/
def firstTop (q : String) (pool : List String) : Option String :=
  pool.find? fun c => decide (ratioStr q c = poolBest q pool)

/-! # Lemmas about the text helpers -/

theorem lowerChar_eq_self (c : Char) (h : ¬(65 ≤ c.toNat ∧ c.toNat ≤ 90)) :
    lowerChar c = c := by
  simp only [lowerChar, dif_neg h]

theorem lowerChar_toNat_upper (c : Char) (h : 65 ≤ c.toNat ∧ c.toNat ≤ 90) :
    (lowerChar c).toNat = c.toNat + 32 := by
  simp only [lowerChar, dif_pos h]
  show (c.val + 32).toNat = c.toNat + 32
  rw [UInt32.toNat_add]
  have h32 : (32 : UInt32).toNat = 32 := rfl
  rw [h32]
  have hs : UInt32.size = 4294967296 := rfl
  have h2 : c.val.toNat ≤ 90 := h.2
  exact Nat.mod_eq_of_lt (by omega)

theorem lowerChar_idem (c : Char) : lowerChar (lowerChar c) = lowerChar c := by
  by_cases h : 65 ≤ c.toNat ∧ c.toNat ≤ 90
  · have ht := lowerChar_toNat_upper c h
    exact lowerChar_eq_self _ (by omega)
  · rw [lowerChar_eq_self c h]
    exact lowerChar_eq_self c h

theorem lowerChar_eq_self_of_keep (c : Char) (h : isStrictKeep c = true) :
    lowerChar c = c := by
  have h' : (97 ≤ c.toNat ∧ c.toNat ≤ 122) ∨ (48 ≤ c.toNat ∧ c.toNat ≤ 57) := by
    simpa [isStrictKeep, Bool.or_eq_true, Bool.and_eq_true, decide_eq_true_eq] using h
  exact lowerChar_eq_self c (by omega)

theorem lowerStr_mem_fixed (l : List Char) (c : Char) (h : c ∈ lowerStr l) :
    lowerChar c = c := by
  rcases List.mem_map.mp h with ⟨x, _, rfl⟩
  exact lowerChar_idem x

theorem lowerStr_eq_self (l : List Char) (h : ∀ c ∈ l, lowerChar c = c) :
    lowerStr l = l := by
  unfold lowerStr
  induction l with
  | nil => rfl
  | cons c cs ih =>
    simp only [List.map_cons]
    rw [h c (List.mem_cons_self c cs), ih fun x hx => h x (List.mem_cons_of_mem c hx)]

theorem ampReplace_eq_self : ∀ l : List Char, (∀ c ∈ l, c ≠ '&') → ampReplace l = l := by
  intro l
  induction l with
  | nil => intro _; rfl
  | cons c cs ih =>
    intro h
    have hc : c ≠ '&' := h c (List.mem_cons_self c cs)
    simp only [ampReplace, if_neg hc]
    rw [ih fun x hx => h x (List.mem_cons_of_mem c hx)]
    rfl

theorem ampReplace_no_amp : ∀ (l : List Char) (c : Char), c ∈ ampReplace l → c ≠ '&' := by
  intro l
  induction l with
  | nil => intro c hc; cases hc
  | cons x xs ih =>
    intro c hc
    simp only [ampReplace, List.mem_append] at hc
    rcases hc with h1 | h2
    · by_cases hx : x = '&'
      · rw [if_pos hx] at h1
        simp only [List.mem_cons, List.not_mem_nil, or_false] at h1
        rcases h1 with rfl | rfl | rfl <;> decide
      · rw [if_neg hx] at h1
        simp only [List.mem_cons, List.not_mem_nil, or_false] at h1
        subst h1
        exact hx
    · exact ih c h2

theorem ampReplace_mem : ∀ (l : List Char) (c : Char), c ∈ ampReplace l →
    c = 'a' ∨ c = 'n' ∨ c = 'd' ∨ c ∈ l := by
  intro l
  induction l with
  | nil => intro c hc; cases hc
  | cons x xs ih =>
    intro c hc
    simp only [ampReplace, List.mem_append] at hc
    rcases hc with h1 | h2
    · by_cases hx : x = '&'
      · rw [if_pos hx] at h1
        simp only [List.mem_cons, List.not_mem_nil, or_false] at h1
        rcases h1 with rfl | rfl | rfl
        · exact Or.inl rfl
        · exact Or.inr (Or.inl rfl)
        · exact Or.inr (Or.inr (Or.inl rfl))
      · rw [if_neg hx] at h1
        simp only [List.mem_cons, List.not_mem_nil, or_false] at h1
        subst h1
        exact Or.inr (Or.inr (Or.inr (List.mem_cons_self c xs)))
    · rcases ih c h2 with h | h | h | h
      · exact Or.inl h
      · exact Or.inr (Or.inl h)
      · exact Or.inr (Or.inr (Or.inl h))
      · exact Or.inr (Or.inr (Or.inr (List.mem_cons_of_mem x h)))

theorem rev_ne_nil {acc : List Char} (he : ¬acc.isEmpty = true) : acc.reverse ≠ [] := by
  intro hrev
  exact he (List.isEmpty_iff.mpr (List.reverse_eq_nil_iff.mp hrev))

theorem splitWsGo_spec : ∀ (l acc : List Char), (∀ c ∈ acc, isWsChar c = false) →
    ∀ w ∈ splitWsGo acc l, w ≠ [] ∧ ∀ c ∈ w, isWsChar c = false ∧ (c ∈ acc ∨ c ∈ l) := by
  intro l
  induction l with
  | nil =>
    intro acc hacc w hw
    simp only [splitWsGo] at hw
    by_cases he : acc.isEmpty
    · rw [if_pos he] at hw; cases hw
    · rw [if_neg he] at hw
      rw [List.mem_singleton] at hw
      subst hw
      refine ⟨rev_ne_nil he, fun c hc => ?_⟩
      have hc' : c ∈ acc := List.mem_reverse.mp hc
      exact ⟨hacc c hc', Or.inl hc'⟩
  | cons x xs ih =>
    intro acc hacc w hw
    simp only [splitWsGo] at hw
    by_cases hx : isWsChar x
    · rw [if_pos hx] at hw
      by_cases he : acc.isEmpty
      · rw [if_pos he] at hw
        rcases ih [] (by intro c hc; cases hc) w hw with ⟨h1, h2⟩
        refine ⟨h1, fun c hc => ?_⟩
        rcases h2 c hc with ⟨hws, hm | hm⟩
        · cases hm
        · exact ⟨hws, Or.inr (List.mem_cons_of_mem x hm)⟩
      · rw [if_neg he] at hw
        rcases List.mem_cons.mp hw with rfl | hw
        · refine ⟨rev_ne_nil he, fun c hc => ?_⟩
          have hc' : c ∈ acc := List.mem_reverse.mp hc
          exact ⟨hacc c hc', Or.inl hc'⟩
        · rcases ih [] (by intro c hc; cases hc) w hw with ⟨h1, h2⟩
          refine ⟨h1, fun c hc => ?_⟩
          rcases h2 c hc with ⟨hws, hm | hm⟩
          · cases hm
          · exact ⟨hws, Or.inr (List.mem_cons_of_mem x hm)⟩
    · rw [if_neg hx] at hw
      have hacc' : ∀ c ∈ x :: acc, isWsChar c = false := by
        intro c hc
        rcases List.mem_cons.mp hc with rfl | hc
        · exact Bool.not_eq_true (isWsChar c) |>.mp hx
        · exact hacc c hc
      rcases ih (x :: acc) hacc' w hw with ⟨h1, h2⟩
      refine ⟨h1, fun c hc => ?_⟩
      rcases h2 c hc with ⟨hws, hm | hm⟩
      · rcases List.mem_cons.mp hm with rfl | hm
        · exact ⟨hws, Or.inr (List.mem_cons_self c xs)⟩
        · exact ⟨hws, Or.inl hm⟩
      · exact ⟨hws, Or.inr (List.mem_cons_of_mem x hm)⟩

theorem splitWs_spec (l : List Char) :
    ∀ w ∈ splitWs l, w ≠ [] ∧ ∀ c ∈ w, isWsChar c = false ∧ c ∈ l := by
  intro w hw
  rcases splitWsGo_spec l [] (by intro c hc; cases hc) w hw with ⟨h1, h2⟩
  refine ⟨h1, fun c hc => ?_⟩
  rcases h2 c hc with ⟨hws, hm | hm⟩
  · cases hm
  · exact ⟨hws, hm⟩

theorem joinWords_mem : ∀ (ws : List (List Char)) (c : Char), c ∈ joinWords ws →
    c = ' ' ∨ ∃ w ∈ ws, c ∈ w := by
  intro ws
  induction ws with
  | nil => intro c hc; cases hc
  | cons w vs ih =>
    intro c hc
    cases vs with
    | nil =>
      right
      exact ⟨w, List.mem_cons_self _ _, hc⟩
    | cons v vs' =>
      simp only [joinWords] at hc
      rcases List.mem_append.mp hc with h1 | h2
      · exact Or.inr ⟨w, List.mem_cons_self _ _, h1⟩
      · rcases List.mem_cons.mp h2 with rfl | h2
        · exact Or.inl rfl
        · rcases ih c h2 with h | ⟨u, hu, hcu⟩
          · exact Or.inl h
          · exact Or.inr ⟨u, List.mem_cons_of_mem w hu, hcu⟩

theorem splitWsGo_append_word : ∀ (w acc rest : List Char),
    (∀ c ∈ w, isWsChar c = false) →
    splitWsGo acc (w ++ rest) = splitWsGo (w.reverse ++ acc) rest := by
  intro w
  induction w with
  | nil => intro acc rest _; simp
  | cons c cs ih =>
    intro acc rest h
    have hc : isWsChar c = false := h c (List.mem_cons_self c cs)
    have e1 : splitWsGo acc ((c :: cs) ++ rest) = splitWsGo (c :: acc) (cs ++ rest) := by
      show splitWsGo acc (c :: (cs ++ rest)) = splitWsGo (c :: acc) (cs ++ rest)
      simp only [splitWsGo, hc, Bool.false_eq_true, if_false]
    rw [e1, ih (c :: acc) rest fun x hx => h x (List.mem_cons_of_mem c hx)]
    congr 1
    simp

theorem splitWs_joinWords : ∀ ws : List (List Char),
    (∀ w ∈ ws, w ≠ [] ∧ ∀ c ∈ w, isWsChar c = false) → splitWs (joinWords ws) = ws := by
  intro ws
  induction ws with
  | nil => intro _; rfl
  | cons w vs ih =>
    intro h
    rcases h w (List.mem_cons_self _ _) with ⟨hw1, hw2⟩
    cases vs with
    | nil =>
      show splitWsGo [] (joinWords [w]) = [w]
      have : joinWords [w] = w := rfl
      rw [this]
      have := splitWsGo_append_word w [] [] hw2
      rw [List.append_nil] at this
      rw [this]
      simp only [splitWsGo, List.append_nil]
      rw [if_neg (by simpa [List.isEmpty_iff] using fun hh => hw1 (by simpa using congrArg List.reverse hh))]
      simp
    | cons v vs' =>
      have hj : joinWords (w :: v :: vs') = w ++ ' ' :: joinWords (v :: vs') := rfl
      show splitWsGo [] (joinWords (w :: v :: vs')) = w :: v :: vs'
      rw [hj, splitWsGo_append_word w [] _ hw2, List.append_nil]
      have hsp : isWsChar ' ' = true := rfl
      simp only [splitWsGo, hsp, if_true]
      rw [if_neg (by simpa [List.isEmpty_iff] using fun hh => hw1 (by simpa using congrArg List.reverse hh))]
      rw [List.reverse_reverse]
      have := ih fun u hu => h u (List.mem_cons_of_mem w hu)
      exact congrArg (w :: ·) this

/-! # Canonicalizer lemmas -/

theorem norm_eq_normalise (s : String) :
    MissingDistricts.norm s = RenameToCodes.normalise s := rfl

theorem strict_canon_idem (s : String) :
    RenameToCodes.normalise (RenameToCodes.normalise s) = RenameToCodes.normalise s := by
  show (⟨(lowerStr (RenameToCodes.normalise s).data).filter isStrictKeep⟩ : String) =
    RenameToCodes.normalise s
  have hdata : (RenameToCodes.normalise s).data = (lowerStr s.data).filter isStrictKeep := rfl
  rw [hdata]
  have hkeep : ∀ c ∈ (lowerStr s.data).filter isStrictKeep, lowerChar c = c :=
    fun c hc => lowerChar_eq_self_of_keep c (List.of_mem_filter hc)
  rw [lowerStr_eq_self _ hkeep]
  rw [List.filter_eq_self.mpr fun c hc => List.of_mem_filter hc]
  exact (congrArg String.mk hdata).symm

theorem canonical_idem (s : String) :
    DistrictMatch.canonical (DistrictMatch.canonical s) = DistrictMatch.canonical s := by
  have hfix : ∀ c ∈ joinWords (splitWs (ampReplace (lowerStr s.data))),
      lowerChar c = c ∧ c ≠ '&' := by
    intro c hc
    rcases joinWords_mem _ c hc with rfl | ⟨w, hw, hcw⟩
    · exact ⟨by decide, by decide⟩
    · rcases splitWs_spec _ w hw with ⟨_, h2⟩
      rcases h2 c hcw with ⟨_, hcL⟩
      refine ⟨?_, ampReplace_no_amp _ c hcL⟩
      rcases ampReplace_mem _ c hcL with rfl | rfl | rfl | hcl
      · decide
      · decide
      · decide
      · exact lowerStr_mem_fixed _ c hcl
  show (⟨joinWords (splitWs (ampReplace (lowerStr (DistrictMatch.canonical s).data)))⟩ : String)
      = DistrictMatch.canonical s
  have hdata : (DistrictMatch.canonical s).data =
      joinWords (splitWs (ampReplace (lowerStr s.data))) := rfl
  rw [hdata]
  rw [lowerStr_eq_self _ fun c hc => (hfix c hc).1]
  rw [ampReplace_eq_self _ fun c hc => (hfix c hc).2]
  rw [splitWs_joinWords _ fun w hw =>
    ⟨(splitWs_spec _ w hw).1, fun c hc => ((splitWs_spec _ w hw).2 c hc).1⟩]
  exact (congrArg String.mk hdata).symm

theorem keep_eq_alnum_of_not_upper (c : Char) (h : ¬(65 ≤ c.toNat ∧ c.toNat ≤ 90)) :
    isStrictKeep c = isAsciiAlnum c := by
  simp only [isStrictKeep, isAsciiAlnum]
  rcases Nat.lt_or_ge c.toNat 65 with h1 | h1
  · have e1 : decide (65 ≤ c.toNat) = false := decide_eq_false (by omega)
    rw [e1]
    simp
  · have e1 : decide (c.toNat ≤ 90) = false := decide_eq_false (by omega)
    rw [e1]
    simp

theorem keep_alnum_lower (c : Char) :
    isStrictKeep (lowerChar c) = isAsciiAlnum (lowerChar c) := by
  by_cases h : 65 ≤ c.toNat ∧ c.toNat ≤ 90
  · have ht := lowerChar_toNat_upper c h
    have h1 : isStrictKeep (lowerChar c) = true := by
      simp only [isStrictKeep, Bool.or_eq_true, Bool.and_eq_true, decide_eq_true_eq]
      omega
    have h2 : isAsciiAlnum (lowerChar c) = true := by
      simp only [isAsciiAlnum, Bool.or_eq_true, Bool.and_eq_true, decide_eq_true_eq]
      omega
    rw [h1, h2]
  · rw [lowerChar_eq_self c h]
    exact keep_eq_alnum_of_not_upper c h

theorem normalise_eq_specNoAmp (s : String) :
    RenameToCodes.normalise s = specStrictNoAmp s := by
  show (⟨(lowerStr s.data).filter isStrictKeep⟩ : String) =
    ⟨(lowerStr s.data).filter isAsciiAlnum⟩
  congr 1
  apply List.filter_congr
  intro c hc
  rcases List.mem_map.mp hc with ⟨x, _, rfl⟩
  exact keep_alnum_lower x

/-! # Lemmas about the fuzzy-selection loop -/

theorem foldr_max_init (l : List ℚ) (a b : ℚ) :
    l.foldr max (max a b) = max b (l.foldr max a) := by
  induction l with
  | nil => exact max_comm a b
  | cons x xs ih =>
    simp only [List.foldr_cons]
    rw [ih]
    exact max_left_comm x b (xs.foldr max a)

theorem le_foldr_max (l : List ℚ) (a : ℚ) : a ≤ l.foldr max a := by
  induction l with
  | nil => exact le_refl a
  | cons x xs ih => exact le_trans ih (le_max_right x _)

theorem scanBestGo_snd (q : String) :
    ∀ (pool : List String) (acc : Option String × ℚ),
      (scanBestGo q acc pool).2 = (pool.map (ratioStr q)).foldr max acc.2 := by
  intro pool
  induction pool with
  | nil => intro acc; rfl
  | cons c cs ih =>
    intro acc
    show (scanBestGo q (if acc.2 < ratioStr q c then (some c, ratioStr q c) else acc) cs).2 =
      (List.map (ratioStr q) (c :: cs)).foldr max acc.2
    rw [ih]
    have h2 : (if acc.2 < ratioStr q c then ((some c : Option String), ratioStr q c) else acc).2
        = max acc.2 (ratioStr q c) := by
      rcases lt_or_ge acc.2 (ratioStr q c) with h | h
      · rw [if_pos h]
        exact (max_eq_right h.le).symm
      · rw [if_neg (not_lt.mpr h)]
        exact (max_eq_left h).symm
    rw [h2]
    simp only [List.map_cons, List.foldr_cons]
    exact foldr_max_init _ _ _

theorem scanBestGo_pres (q : String) :
    ∀ (pool : List String) (acc : Option String × ℚ),
      (scanBestGo q acc pool).2 = acc.2 → scanBestGo q acc pool = acc := by
  intro pool
  induction pool with
  | nil => intro acc _; rfl
  | cons c cs ih =>
    intro acc h
    have hstep : scanBestGo q acc (c :: cs)
        = scanBestGo q (if acc.2 < ratioStr q c then (some c, ratioStr q c) else acc) cs := rfl
    rw [hstep] at h ⊢
    by_cases hlt : acc.2 < ratioStr q c
    · rw [if_pos hlt] at h
      have hs := scanBestGo_snd q cs ((some c : Option String), ratioStr q c)
      have hge : ratioStr q c ≤ (scanBestGo q ((some c : Option String), ratioStr q c) cs).2 := by
        rw [hs]
        exact le_foldr_max _ _
      rw [h] at hge
      exact absurd hlt (not_lt.mpr hge)
    · rw [if_neg hlt] at h ⊢
      exact ih acc h

theorem scanBestGo_fst (q : String) :
    ∀ (pool : List String) (acc : Option String × ℚ),
      acc.2 < (scanBestGo q acc pool).2 →
      (scanBestGo q acc pool).1 =
        pool.find? (fun c => decide (ratioStr q c = (scanBestGo q acc pool).2)) := by
  intro pool
  induction pool with
  | nil => intro acc h; exact absurd h (lt_irrefl _)
  | cons c cs ih =>
    intro acc h
    have hstep : scanBestGo q acc (c :: cs)
        = scanBestGo q (if acc.2 < ratioStr q c then (some c, ratioStr q c) else acc) cs := rfl
    rw [hstep] at h ⊢
    by_cases hlt : acc.2 < ratioStr q c
    · rw [if_pos hlt] at h ⊢
      by_cases h2 : ratioStr q c < (scanBestGo q ((some c : Option String), ratioStr q c) cs).2
      · have hih := ih ((some c : Option String), ratioStr q c) h2
        have hne : decide
            (ratioStr q c = (scanBestGo q ((some c : Option String), ratioStr q c) cs).2) = false :=
          decide_eq_false (ne_of_lt h2)
        rw [List.find?_cons, hne, hih]
      · have hsnd := scanBestGo_snd q cs ((some c : Option String), ratioStr q c)
        have hge : ratioStr q c ≤ (scanBestGo q ((some c : Option String), ratioStr q c) cs).2 := by
          rw [hsnd]
          exact le_foldr_max _ _
        have hle : (scanBestGo q ((some c : Option String), ratioStr q c) cs).2 = ratioStr q c :=
          le_antisymm (not_lt.mp h2) hge
        rw [scanBestGo_pres q cs _ hle]
        have hp : decide (ratioStr q c = ((some c : Option String), ratioStr q c).2) = true :=
          decide_eq_true rfl
        rw [List.find?_cons, hp]
    · rw [if_neg hlt] at h ⊢
      have hih := ih acc h
      have hne : decide (ratioStr q c = (scanBestGo q acc cs).2) = false :=
        decide_eq_false (ne_of_lt (lt_of_le_of_lt (not_lt.mp hlt) h))
      rw [List.find?_cons, hne, hih]

theorem scanBest_snd (q : String) (pool : List String) :
    (scanBest q pool).2 = poolBest q pool :=
  scanBestGo_snd q pool (none, 0)

theorem scanBest_fst (q : String) (pool : List String) (h : 0 < poolBest q pool) :
    (scanBest q pool).1 = firstTop q pool := by
  have e : (scanBestGo q (none, 0) pool).2 = poolBest q pool := scanBestGo_snd q pool (none, 0)
  have h' : ((none : Option String), (0 : ℚ)).2 < (scanBestGo q (none, 0) pool).2 := by
    rw [e]
    exact h
  have hfst := scanBestGo_fst q pool (none, 0) h'
  show (scanBestGo q (none, 0) pool).1 = firstTop q pool
  rw [hfst]
  unfold firstTop
  simp only [e]

theorem poolBest_lt_of_all (q : String) (t : ℚ) (ht : 0 < t) :
    ∀ pool : List String, (∀ c ∈ pool, ratioStr q c < t) → poolBest q pool < t := by
  intro pool
  induction pool with
  | nil => intro _; simpa [poolBest] using ht
  | cons c cs ih =>
    intro h
    have h1 := h c (List.mem_cons_self c cs)
    have h2 := ih fun x hx => h x (List.mem_cons_of_mem c hx)
    simp only [poolBest, List.map_cons, List.foldr_cons] at h2 ⊢
    exact max_lt h1 h2

theorem best_match_eq (q : String) (pool : List String) (t : ℚ) (ht : 0 < t) :
    MissingDistricts.best_match q pool t =
      (if t ≤ poolBest q pool then firstTop q pool else none, poolBest q pool) := by
  unfold MissingDistricts.best_match
  have hsnd := scanBest_snd q pool
  by_cases hth : t ≤ poolBest q pool
  · have hth' : t ≤ (scanBest q pool).2 := by rw [hsnd]; exact hth
    rw [if_pos hth', if_pos hth]
    have hM : 0 < poolBest q pool := lt_of_lt_of_le ht hth
    exact Prod.ext (scanBest_fst q pool hM) hsnd
  · have hth' : ¬t ≤ (scanBest q pool).2 := by rw [hsnd]; exact hth
    rw [if_neg hth', if_neg hth]
    rw [hsnd]

theorem best_fuzzy_match_eq (q : String) (pool : List String) (t : ℚ) (ht : 0 < t) :
    RenameToCodes.best_fuzzy_match q pool t =
      (if t ≤ poolBest q pool then firstTop q pool else none) := by
  unfold RenameToCodes.best_fuzzy_match
  have hsnd := scanBest_snd q pool
  by_cases hth : t ≤ poolBest q pool
  · have hth' : t ≤ (scanBest q pool).2 := by rw [hsnd]; exact hth
    rw [if_pos hth', if_pos hth]
    exact scanBest_fst q pool (lt_of_lt_of_le ht hth)
  · have hth' : ¬t ≤ (scanBest q pool).2 := by rw [hsnd]; exact hth
    rw [if_neg hth', if_neg hth]

theorem foldl_pick_mem {α : Type} (f : α → ℚ) :
    ∀ (xs : List α) (a : α), xs.foldl (fun b y => if f b < f y then y else b) a ∈ a :: xs := by
  intro xs
  induction xs with
  | nil => intro a; exact List.mem_cons_self a []
  | cons y ys ih =>
    intro a
    show ys.foldl _ (if f a < f y then y else a) ∈ a :: y :: ys
    have h := ih (if f a < f y then y else a)
    rcases List.mem_cons.mp h with h1 | h1
    · rw [h1]
      by_cases hy : f a < f y
      · rw [if_pos hy]
        exact List.mem_cons_of_mem a (List.mem_cons_self y ys)
      · rw [if_neg hy]
        exact List.mem_cons_self a _
    · exact List.mem_cons_of_mem a (List.mem_cons_of_mem y h1)

theorem firstMaxBy_mem {α : Type} (f : α → ℚ) (l : List α) (b : α)
    (h : firstMaxBy f l = some b) : b ∈ l := by
  cases l with
  | nil => cases h
  | cons x xs =>
    have hb : xs.foldl (fun b y => if f b < f y then y else b) x = b := by
      injection h
    rw [← hb]
    exact foldl_pick_mem f xs x

/-! # Lemmas about the dict model -/

theorem alookup_cons (p : κ × ν) (m : List (κ × ν)) (k : κ) :
    alookup (p :: m) k = if p.1 = k then some p.2 else alookup m k := by
  unfold alookup
  rw [List.find?_cons]
  by_cases h : p.1 = k
  · rw [decide_eq_true h, if_pos h]
    rfl
  · rw [decide_eq_false h, if_neg h]

theorem alookup_append (m1 m2 : List (κ × ν)) (k : κ) :
    alookup (m1 ++ m2) k = (alookup m1 k).or (alookup m2 k) := by
  unfold alookup
  rw [List.find?_append]
  cases m1.find? fun p => decide (p.1 = k) <;> simp [Option.or]

theorem alookup_eq_none_of_any_false (m : List (κ × ν)) (k : κ)
    (h : m.any (fun p => decide (p.1 = k)) = false) : alookup m k = none := by
  unfold alookup
  rw [List.find?_eq_none.mpr]
  · rfl
  · intro p hp
    have := List.any_eq_false.mp h p hp
    simpa using this

theorem alookup_map_replace_ne (k0 k : κ) (v0 : ν) (hk : ¬k0 = k) :
    ∀ m : List (κ × ν),
      alookup (m.map fun p => if p.1 = k0 then (k0, v0) else p) k = alookup m k := by
  intro m
  induction m with
  | nil => rfl
  | cons p m ih =>
    simp only [List.map_cons]
    rw [alookup_cons, alookup_cons]
    by_cases hp : p.1 = k0
    · rw [if_pos hp]
      rw [if_neg (show ¬((k0, v0) : κ × ν).1 = k from hk), if_neg (hp ▸ hk)]
      exact ih
    · rw [if_neg hp]
      by_cases hpk : p.1 = k
      · rw [if_pos hpk, if_pos hpk]
      · rw [if_neg hpk, if_neg hpk]
        exact ih

theorem alookup_map_replace_eq (k0 : κ) (v0 : ν) :
    ∀ m : List (κ × ν), m.any (fun p => decide (p.1 = k0)) = true →
      alookup (m.map fun p => if p.1 = k0 then (k0, v0) else p) k0 = some v0 := by
  intro m
  induction m with
  | nil => intro h; cases h
  | cons p m ih =>
    intro h
    simp only [List.map_cons]
    rw [alookup_cons]
    by_cases hp : p.1 = k0
    · rw [if_pos hp]
      rw [if_pos (show ((k0, v0) : κ × ν).1 = k0 from rfl)]
    · rw [if_neg hp]
      have h' : m.any (fun p => decide (p.1 = k0)) = true := by
        simp only [List.any_cons, Bool.or_eq_true, decide_eq_true_eq] at h
        rcases h with h | h
        · exact absurd h hp
        · exact List.any_eq_true.mpr (by simpa using h)
      rw [if_neg hp]
      exact ih h'

theorem alookup_dSet (m : List (κ × ν)) (k0 k : κ) (v0 : ν) :
    alookup (dSet m k0 v0) k = if k0 = k then some v0 else alookup m k := by
  unfold dSet
  by_cases hany : m.any (fun p => decide (p.1 = k0)) = true
  · rw [if_pos hany]
    by_cases hk : k0 = k
    · subst hk
      rw [if_pos rfl]
      exact alookup_map_replace_eq k0 v0 m hany
    · rw [if_neg hk]
      exact alookup_map_replace_ne k0 k v0 hk m
  · rw [if_neg hany]
    rw [alookup_append]
    by_cases hk : k0 = k
    · subst hk
      rw [if_pos rfl]
      rw [alookup_eq_none_of_any_false m k0 (Bool.not_eq_true _ |>.mp hany)]
      rw [alookup_cons, if_pos rfl]
      rfl
    · rw [if_neg hk]
      rw [alookup_cons, if_neg hk]
      cases alookup m k <;> rfl

theorem alookup_setdefault (m : List (κ × ν)) (k0 k : κ) (v0 : ν) :
    alookup (setdefault m k0 v0) k =
      match alookup m k with
      | some v => some v
      | none => if k0 = k then some v0 else none := by
  unfold setdefault
  by_cases hs : (m.find? fun p => decide (p.1 = k0)).isSome = true
  · rw [if_pos hs]
    cases hm : alookup m k with
    | some v => rfl
    | none =>
      by_cases hk : k0 = k
      · subst hk
        exfalso
        unfold alookup at hm
        rw [Option.map_eq_none'] at hm
        rw [hm] at hs
        cases hs
      · rw [if_neg hk]
  · rw [if_neg hs]
    rw [alookup_append]
    cases hm : alookup m k with
    | some v => rfl
    | none =>
      show Option.or none (alookup [(k0, v0)] k) = if k0 = k then some v0 else none
      rw [alookup_cons]
      by_cases hk : k0 = k
      · rw [if_pos hk, if_pos hk]
        rfl
      · rw [if_neg hk, if_neg hk]
        rfl

theorem foldl_prod {α β ρ : Type} (f : α → ρ → α) (g : β → ρ → β) :
    ∀ (l : List ρ) (a : α) (b : β),
      l.foldl (fun p r => (f p.1 r, g p.2 r)) (a, b) = (l.foldl f a, l.foldl g b) := by
  intro l
  induction l with
  | nil => intro a b; rfl
  | cons r rs ih => intro a b; exact ih (f a r) (g b r)

theorem alookup_foldl_setdefault {ρ : Type} (key : ρ → κ) (val : ρ → ν) :
    ∀ (l : List ρ) (m : List (κ × ν)) (k : κ),
      alookup (l.foldl (fun m r => setdefault m (key r) (val r)) m) k =
        match alookup m k with
        | some v => some v
        | none => (l.find? fun r => decide (key r = k)).map val := by
  intro l
  induction l with
  | nil =>
    intro m k
    show alookup m k = match alookup m k with
      | some v => some v
      | none => Option.map val (List.find? (fun r => decide (key r = k)) [])
    cases alookup m k <;> rfl
  | cons r rs ih =>
    intro m k
    show alookup (rs.foldl _ (setdefault m (key r) (val r))) k = _
    rw [ih, alookup_setdefault, List.find?_cons]
    by_cases hk : key r = k
    · rw [decide_eq_true hk, if_pos hk]
      cases hm : alookup m k <;> rfl
    · rw [decide_eq_false hk, if_neg hk]
      cases hm : alookup m k <;> rfl

theorem alookup_foldl_dSet {ρ : Type} (key : ρ → κ) (val : ρ → ν) :
    ∀ (l : List ρ) (m : List (κ × ν)) (k : κ),
      alookup (l.foldl (fun m r => dSet m (key r) (val r)) m) k =
        match l.reverse.find? fun r => decide (key r = k) with
        | some r => some (val r)
        | none => alookup m k := by
  intro l
  induction l with
  | nil => intro m k; rfl
  | cons r rs ih =>
    intro m k
    show alookup (rs.foldl _ (dSet m (key r) (val r))) k = _
    rw [ih, List.reverse_cons, List.find?_append]
    cases hf : rs.reverse.find? fun r => decide (key r = k) with
    | some r' => rfl
    | none =>
      show alookup (dSet m (key r) (val r)) k =
        match (List.find? (fun r => decide (key r = k)) [r]) with
        | some r => some (val r)
        | none => alookup m k
      rw [List.find?_cons]
      rw [alookup_dSet]
      by_cases hk : key r = k
      · rw [decide_eq_true hk, if_pos hk]
      · rw [decide_eq_false hk, if_neg hk]
        cases alookup m k <;> rfl

/-! # Lemmas about the merge operations -/

theorem mergeRows_step (e : List MergeDistricts.GeoRow) (r : MergeDistricts.GeoRow)
    (rs : List MergeDistricts.GeoRow) :
    MergeDistricts.mergeRows e (r :: rs) =
      MergeDistricts.mergeRows (if r ∈ e then e else e ++ [r]) rs := rfl

theorem mergeRows_toFinset : ∀ (inc e : List MergeDistricts.GeoRow),
    (MergeDistricts.mergeRows e inc).toFinset = e.toFinset ∪ inc.toFinset := by
  intro inc
  induction inc with
  | nil =>
    intro e
    simp [MergeDistricts.mergeRows]
  | cons r rs ih =>
    intro e
    rw [mergeRows_step, ih]
    by_cases hr : r ∈ e
    · rw [if_pos hr]
      ext x
      simp only [Finset.mem_union, List.mem_toFinset, List.mem_cons]
      constructor
      · rintro (h | h)
        · exact Or.inl h
        · exact Or.inr (Or.inr h)
      · rintro (h | rfl | h)
        · exact Or.inl h
        · exact Or.inl hr
        · exact Or.inr h
    · rw [if_neg hr]
      ext x
      simp only [Finset.mem_union, List.mem_toFinset, List.mem_append,
        List.mem_singleton, List.mem_cons]
      tauto

theorem mergeRows_nodup : ∀ (inc e : List MergeDistricts.GeoRow), e.Nodup →
    (MergeDistricts.mergeRows e inc).Nodup := by
  intro inc
  induction inc with
  | nil => intro e he; exact he
  | cons r rs ih =>
    intro e he
    rw [mergeRows_step]
    by_cases hr : r ∈ e
    · rw [if_pos hr]
      exact ih e he
    · rw [if_neg hr]
      refine ih _ (List.Nodup.append he (List.nodup_singleton r) ?_)
      intro a ha hb
      rw [List.mem_singleton] at hb
      subst hb
      exact hr ha

theorem append_csv_toFinset (a b : List String) :
    (MissingDistricts.append_csv a b).toFinset = a.toFinset ∪ b.toFinset := by
  ext x
  simp only [MissingDistricts.append_csv, List.toFinset_append, Finset.mem_union,
    List.mem_toFinset, List.mem_filter, decide_eq_true_eq]
  constructor
  · rintro (h | ⟨h, _⟩)
    · exact Or.inl h
    · exact Or.inr h
  · rintro (h | h)
    · exact Or.inl h
    · by_cases hx : x ∈ a
      · exact Or.inl hx
      · exact Or.inr ⟨h, hx⟩

theorem append_csv_nodup (a b : List String) (ha : a.Nodup) (hb : b.Nodup) :
    (MissingDistricts.append_csv a b).Nodup := by
  unfold MissingDistricts.append_csv
  refine List.Nodup.append ha (hb.filter _) ?_
  intro x hxa hxb
  rw [List.mem_filter] at hxb
  have h2 := hxb.2
  rw [decide_eq_true_eq] at h2
  exact h2 hxa

/-! # Lemmas about code-book loading -/

theorem filter_drop_bad (l1 l2 : List CodeRow) (b : CodeRow)
    (hb : MissingDistricts.rowDigits b = false) :
    (l1 ++ b :: l2).filter MissingDistricts.rowDigits =
      (l1 ++ l2).filter MissingDistricts.rowDigits := by
  simp [List.filter_append, List.filter_cons, hb]

theorem mdload_drop_bad (l1 l2 : List CodeRow) (b : CodeRow)
    (hb : MissingDistricts.rowDigits b = false) :
    MissingDistricts.load_codes (l1 ++ b :: l2) = MissingDistricts.load_codes (l1 ++ l2) := by
  unfold MissingDistricts.load_codes
  rw [filter_drop_bad l1 l2 b hb]

theorem padRow?_none_of_parse_fail (b : CodeRow)
    (h : parsePyInt? b.state_code = none ∨ parsePyInt? b.district_code = none) :
    RenameToCodes.padRow? b = none := by
  unfold RenameToCodes.padRow?
  rcases h with h | h
  · rw [h]
  · rw [h]
    cases parsePyInt? b.state_code <;> rfl

theorem padRow?_some (b : CodeRow) (z w : Int)
    (hs : parsePyInt? b.state_code = some z) (hd : parsePyInt? b.district_code = some w) :
    RenameToCodes.padRow? b =
      some { b with state_code := fmt02i z, district_code := fmt02i w } := by
  unfold RenameToCodes.padRow?
  rw [hs, hd]

theorem padRows?_none (b : CodeRow) (hb : RenameToCodes.padRow? b = none) :
    ∀ l1 l2 : List CodeRow, RenameToCodes.padRows? (l1 ++ b :: l2) = none := by
  intro l1
  induction l1 with
  | nil =>
    intro l2
    show RenameToCodes.padRows? (b :: l2) = none
    simp only [RenameToCodes.padRows?]
    rw [hb]
  | cons r rs ih =>
    intro l2
    show RenameToCodes.padRows? (r :: (rs ++ b :: l2)) = none
    simp only [RenameToCodes.padRows?]
    rw [ih l2]
    cases RenameToCodes.padRow? r <;> rfl

theorem rtload_error (l1 l2 : List CodeRow) (b : CodeRow)
    (hb : RenameToCodes.padRow? b = none) :
    RenameToCodes.load_codes (l1 ++ b :: l2) = .error "invalid literal for int()" := by
  unfold RenameToCodes.load_codes
  rw [padRows?_none b hb l1 l2]

theorem rtload_singleton_ok (b : CodeRow) (z w : Int)
    (hs : parsePyInt? b.state_code = some z) (hd : parsePyInt? b.district_code = some w) :
    RenameToCodes.load_codes [b] =
      .ok (RenameToCodes.buildMaps
        [{ b with state_code := fmt02i z, district_code := fmt02i w }]) := by
  unfold RenameToCodes.load_codes
  have h1 : RenameToCodes.padRows? [b] =
      some [{ b with state_code := fmt02i z, district_code := fmt02i w }] := by
    simp only [RenameToCodes.padRows?, padRow?_some b z w hs hd]
  rw [h1]

theorem mdload_singleton_dropped (b : CodeRow)
    (hb : MissingDistricts.rowDigits b = false) :
    MissingDistricts.load_codes [b] = [] := by
  unfold MissingDistricts.load_codes
  simp [List.filter_cons, hb]

/-! # Lemmas about the date-coding loop -/

theorem label_partition : ∀ ls : List CodingDistricts.Label,
    ls.countP (fun l => decide (l = .one)) + ls.countP (fun l => decide (l = .zero)) +
      ls.countP (fun l => decide (l = .missing)) = ls.length := by
  intro ls
  induction ls with
  | nil => rfl
  | cons l ls ih =>
    cases l <;> simp [List.countP_cons] <;> omega

theorem countP_missing_cons (L : CodingDistricts.Label) (ls : List CodingDistricts.Label)
    (m : Nat) (hm : m = ls.countP (fun l => decide (l = .missing))) :
    (if L = .missing then m + 1 else m) = (L :: ls).countP (fun l => decide (l = .missing)) := by
  subst hm
  cases L <;> simp [List.countP_cons]

theorem processRows_spec (files : CodingDistricts.FileMap) :
    ∀ (rows : List CodingDistricts.DateRow) (labels : List CodingDistricts.Label) (miss : Nat),
      CodingDistricts.processRows files rows = .ok (labels, miss) →
      labels.length = rows.length ∧
      miss = labels.countP (fun l => decide (l = .missing)) ∧
      labels.countP (fun l => decide (l = .one)) + labels.countP (fun l => decide (l = .zero)) +
        labels.countP (fun l => decide (l = .missing)) = labels.length ∧
      ∀ (i : Nat) (hi : i < rows.length) (hl : i < labels.length),
        (labels.get ⟨i, hl⟩ = .missing ↔
          CodingDistricts.rowFile files (rows.get ⟨i, hi⟩) = none) ∧
        (labels.get ⟨i, hl⟩ = .one ↔
          ∃ ds, CodingDistricts.rowFile files (rows.get ⟨i, hi⟩) = some ds ∧
            CodingDistricts.isoHit (rows.get ⟨i, hi⟩) ds = true) ∧
        (labels.get ⟨i, hl⟩ = .zero ↔
          ∃ ds, CodingDistricts.rowFile files (rows.get ⟨i, hi⟩) = some ds ∧
            CodingDistricts.isoHit (rows.get ⟨i, hi⟩) ds = false) := by
  intro rows
  induction rows with
  | nil =>
    intro labels miss h
    simp only [CodingDistricts.processRows, Except.ok.injEq, Prod.mk.injEq] at h
    obtain ⟨h1, h2⟩ := h
    subst h1
    subst h2
    refine ⟨rfl, rfl, rfl, ?_⟩
    intro i hi
    exact absurd hi (Nat.not_lt_zero i)
  | cons r rs ih =>
    intro labels miss h
    simp only [CodingDistricts.processRows] at h
    cases hst : CodingDistricts.pad r.stateRaw with
    | none =>
      cases hdt : CodingDistricts.pad r.districtRaw with
      | none => rw [hst, hdt] at h; cases h
      | some dt => rw [hst, hdt] at h; cases h
    | some st =>
      cases hdt : CodingDistricts.pad r.districtRaw with
      | none => rw [hst, hdt] at h; cases h
      | some dt =>
        rw [hst, hdt] at h
        cases hrec : CodingDistricts.processRows files rs with
        | error e => rw [hrec] at h; cases h
        | ok p =>
          obtain ⟨ls, m⟩ := p
          rw [hrec] at h
          simp only [Except.ok.injEq, Prod.mk.injEq] at h
          obtain ⟨hlab, hmiss⟩ := h
          obtain ⟨ih1, ih2, ih3, ih4⟩ := ih ls m hrec
          subst hlab
          subst hmiss
          have hrf : CodingDistricts.rowFile files r = alookup files (st, dt) := by
            unfold CodingDistricts.rowFile
            rw [hst, hdt]
          refine ⟨by simp [ih1], (countP_missing_cons _ ls m ih2).symm ▸ rfl, label_partition _, ?_⟩
          intro i hi hl
          cases i with
          | zero =>
            show (CodingDistricts.labelOf files st dt r.iso = .missing ↔
                CodingDistricts.rowFile files r = none) ∧
              (CodingDistricts.labelOf files st dt r.iso = .one ↔
                ∃ ds, CodingDistricts.rowFile files r = some ds ∧
                  CodingDistricts.isoHit r ds = true) ∧
              (CodingDistricts.labelOf files st dt r.iso = .zero ↔
                ∃ ds, CodingDistricts.rowFile files r = some ds ∧
                  CodingDistricts.isoHit r ds = false)
            rw [hrf]
            unfold CodingDistricts.labelOf
            cases hal : alookup files (st, dt) with
            | none => simp
            | some ds =>
              cases hiso : r.iso with
              | some d =>
                by_cases hd : d ∈ ds
                · simp [hd, CodingDistricts.isoHit, hiso]
                · simp [hd, CodingDistricts.isoHit, hiso]
              | none => simp [CodingDistricts.isoHit, hiso]
          | succ i' =>
            exact ih4 i' (Nat.lt_of_succ_lt_succ hi) (Nat.lt_of_succ_lt_succ hl)

/-! # Lemmas about the resolution paths -/

theorem alookup_some_mem (m : List (κ × ν)) (k : κ) (v : ν) (h : alookup m k = some v) :
    ∃ p ∈ m, p.2 = v := by
  unfold alookup at h
  rw [Option.map_eq_some'] at h
  obtain ⟨p, hp, hv⟩ := h
  exact ⟨p, List.mem_of_find?_eq_some hp, hv⟩

theorem aliases_values_ne_empty : ∀ p ∈ RenameToCodes.ALIASES, p.2 ≠ "" := by decide

theorem resolveState_alias (key c : String) (m : List (String × String))
    (h : alookup RenameToCodes.ALIASES key = some c) :
    RenameToCodes.resolveState key m = some c := by
  have hc : c ≠ "" := by
    obtain ⟨p, hp, hv⟩ := alookup_some_mem _ _ _ h
    subst hv
    exact aliases_values_ne_empty p hp
  simp only [RenameToCodes.resolveState, h, if_neg hc]

theorem fixResolve_alias (s n d : String) (pool : List String)
    (pm : List (String × String × String)) (t : ℚ)
    (hskip : (s, n) ∉ MissingDistricts.SKIP_LIST)
    (h : alookup MissingDistricts.ALIAS_TO_CODE (s, n) = some d) :
    MissingDistricts.fixResolve s n pool pm t = .aliased d := by
  unfold MissingDistricts.fixResolve
  rw [if_neg hskip]
  simp only [h]

theorem resolveStateFolder_none (stRaw : String) (present : List (String × List String))
    (hAlias : alookup DistrictMatch.ALIAS_MAP stRaw = none)
    (hExact : stRaw ∉ present.map (·.1))
    (hFuzzy : ∀ s ∈ present.map (·.1),
      DistrictMatch.similarity stRaw s < DistrictMatch.STATE_FUZZY_THRESHOLD) :
    DistrictMatch.resolveStateFolder stRaw present = none := by
  unfold DistrictMatch.resolveStateFolder
  simp only [hAlias, if_neg hExact]
  cases hb : firstMaxBy (fun s => DistrictMatch.similarity stRaw s) (present.map (·.1)) with
  | none => simp [hb]
  | some b =>
    have hbm := firstMaxBy_mem _ _ _ hb
    have hlt := hFuzzy b hbm
    have hcond : ¬(b ≠ "" ∧ DistrictMatch.STATE_FUZZY_THRESHOLD ≤ DistrictMatch.similarity stRaw b) :=
      fun hh => absurd hh.2 (not_le.mpr hlt)
    simp [hb, if_neg hcond]

theorem processRow_unresolved (stRaw0 distRaw0 : String)
    (present : List (String × List String))
    (hs : strTrim stRaw0 ≠ "") (hd : strTrim distRaw0 ≠ "")
    (hnone : DistrictMatch.resolveStateFolder (strTrim stRaw0) present = none) :
    DistrictMatch.processRow stRaw0 distRaw0 present = .res .missingStateFolder false := by
  unfold DistrictMatch.processRow
  rw [if_neg (not_or.mpr ⟨hs, hd⟩)]
  simp only [hnone]

theorem resolveState_none (key : String) (stateMap : List (String × String))
    (hAlias : alookup RenameToCodes.ALIASES key = none)
    (hFuzzy : ∀ k ∈ stateMap.map (·.1), ratioStr key k < mkRat 4 5) :
    RenameToCodes.resolveState key stateMap = none := by
  have hbm : RenameToCodes.best_fuzzy_match key (stateMap.map (·.1)) (mkRat 4 5) = none := by
    unfold RenameToCodes.best_fuzzy_match
    have hlt : (scanBest key (stateMap.map (·.1))).2 < mkRat 4 5 := by
      rw [scanBest_snd]
      exact poolBest_lt_of_all key (mkRat 4 5) (by decide) _ hFuzzy
    rw [if_neg (not_le.mpr hlt)]
  simp only [RenameToCodes.resolveState, hAlias, hbm]

theorem renameStateDir_unmatched (dirName : String) (files : List String)
    (stateMap : List (String × String)) (districtMap : List ((String × String) × String))
    (h : RenameToCodes.resolveState (RenameToCodes.normalise dirName) stateMap = none) :
    RenameToCodes.renameStateDir dirName files stateMap districtMap = .unmatched := by
  unfold RenameToCodes.renameStateDir
  simp only [h]

/-! # Claim theorems -/

/-- C1: for every raw name with an entry in the alias table, resolution
returns the alias's target code no matter what the fuzzy candidate pool
holds (including a candidate of similarity 1.0): in `rename_everything` the
`ALIASES` lookup is consulted first and its success short-circuits fuzzy
matching, and in `fix` the `ALIAS_TO_CODE` lookup short-circuits
`best_match`. -/
theorem c1_alias_precedence (key c : String) (m : List (String × String))
    (s n d : String) (pool : List String) (pm : List (String × String × String)) (t : ℚ)
    (h1 : alookup RenameToCodes.ALIASES key = some c)
    (h2 : (s, n) ∉ MissingDistricts.SKIP_LIST)
    (h3 : alookup MissingDistricts.ALIAS_TO_CODE (s, n) = some d) :
    RenameToCodes.resolveState key m = some c ∧
      MissingDistricts.fixResolve s n pool pm t = .aliased d :=
  ⟨resolveState_alias key c m h1, fixResolve_alias s n d pool pm t h2 h3⟩

/-- Witness for C1: `delhi` resolves to its alias code `07` even though the
pool holds a similarity-1.0 candidate mapping to `99`, and Karnataka's
`mysore` takes alias code `20` even though the pool holds `mysore` itself
(similarity 1.0) mapping to `99`. -/
theorem c1_alias_precedence_witness :
    RenameToCodes.resolveState "delhi" [("delhi", "99")] = some "07" ∧
      MissingDistricts.fixResolve "29" "mysore" ["mysore"]
        [("mysore", "99", "Mysore")] (mkRat 4 5) = .aliased "20" :=
  c1_alias_precedence "delhi" "07" [("delhi", "99")] "29" "mysore" "20" ["mysore"]
    [("mysore", "99", "Mysore")] (mkRat 4 5) (by decide) (by decide) (by decide)

/-- C2: a record whose raw state name fails all three state-level
strategies (alias table, exact hit, fuzzy at the 0.80 state threshold) is
reported as an unresolved/missing state, the district matcher is never
invoked for it (`districtMatcherInvoked = false`), and in
`rename_everything` the unmatched state folder skips all district lookups
(`StateDirResult.unmatched` carries no district action). -/
theorem c2_unresolved_state_skips_district (stRaw0 distRaw0 : String)
    (present : List (String × List String))
    (dirName : String) (files : List String) (stateMap : List (String × String))
    (districtMap : List ((String × String) × String))
    (hs : strTrim stRaw0 ≠ "") (hd : strTrim distRaw0 ≠ "")
    (hAlias : alookup DistrictMatch.ALIAS_MAP (strTrim stRaw0) = none)
    (hExact : strTrim stRaw0 ∉ present.map (·.1))
    (hFuzzy : ∀ s ∈ present.map (·.1),
      DistrictMatch.similarity (strTrim stRaw0) s < DistrictMatch.STATE_FUZZY_THRESHOLD)
    (hAlias2 : alookup RenameToCodes.ALIASES (RenameToCodes.normalise dirName) = none)
    (hFuzzy2 : ∀ k ∈ stateMap.map (·.1),
      ratioStr (RenameToCodes.normalise dirName) k < mkRat 4 5) :
    DistrictMatch.processRow stRaw0 distRaw0 present =
        .res .missingStateFolder false ∧
      RenameToCodes.renameStateDir dirName files stateMap districtMap = .unmatched :=
  ⟨processRow_unresolved stRaw0 distRaw0 present hs hd
      (resolveStateFolder_none _ present hAlias hExact hFuzzy),
    renameStateDir_unmatched dirName files stateMap districtMap
      (resolveState_none _ stateMap hAlias2 hFuzzy2)⟩

/-- Witness for C2: the spec's scenario `("Atlantis", "Nowhere")` against a
pool holding only Karnataka (similarity 6/17 < 0.80) is reported as a
missing state with the district matcher not invoked, and the `Atlantis`
folder is unmatched in `rename_everything`. -/
theorem c2_unresolved_state_skips_district_witness :
    DistrictMatch.processRow "Atlantis" "Nowhere" [("Karnataka", ["Mysuru"])] =
        .res .missingStateFolder false ∧
      RenameToCodes.renameStateDir "Atlantis" ["Nowhere"] [("karnataka", "29")] [] =
        .unmatched :=
  c2_unresolved_state_skips_district "Atlantis" "Nowhere" [("Karnataka", ["Mysuru"])]
    "Atlantis" ["Nowhere"] [("karnataka", "29")] []
    (by decide) (by decide) (by decide) (by decide) (by decide) (by decide) (by decide)

/-- C3: for record sets (duplicate-free lists) merged by `append_csv` or by
the `merge_districts` duplicate-elimination loop, merging A then B and
merging B then A produce the same final set of records, namely the union,
with every record appearing exactly once. -/
theorem c3_merge_order_independent (a b : List String)
    (ra rb : List MergeDistricts.GeoRow)
    (ha : a.Nodup) (hb : b.Nodup) (hra : ra.Nodup) (hrb : rb.Nodup) :
    (MissingDistricts.append_csv a b).toFinset = a.toFinset ∪ b.toFinset ∧
      (MissingDistricts.append_csv a b).toFinset =
        (MissingDistricts.append_csv b a).toFinset ∧
      (MissingDistricts.append_csv a b).Nodup ∧
      (MissingDistricts.append_csv b a).Nodup ∧
      (MergeDistricts.mergeRows ra rb).toFinset = ra.toFinset ∪ rb.toFinset ∧
      (MergeDistricts.mergeRows ra rb).toFinset =
        (MergeDistricts.mergeRows rb ra).toFinset ∧
      (MergeDistricts.mergeRows ra rb).Nodup ∧
      (MergeDistricts.mergeRows rb ra).Nodup := by
  refine ⟨append_csv_toFinset a b, ?_, append_csv_nodup a b ha hb,
    append_csv_nodup b a hb ha, mergeRows_toFinset rb ra, ?_,
    mergeRows_nodup rb ra hra, mergeRows_nodup ra rb hrb⟩
  · rw [append_csv_toFinset, append_csv_toFinset, Finset.union_comm]
  · rw [mergeRows_toFinset, mergeRows_toFinset, Finset.union_comm]

/-- Witness for C3 on overlapping concrete record sets. -/
theorem c3_merge_order_independent_witness :
    (MissingDistricts.append_csv ["r1", "r2"] ["r2", "r3"]).toFinset =
        (["r1", "r2"] : List String).toFinset ∪ (["r2", "r3"] : List String).toFinset ∧
      (MissingDistricts.append_csv ["r1", "r2"] ["r2", "r3"]).toFinset =
        (MissingDistricts.append_csv ["r2", "r3"] ["r1", "r2"]).toFinset ∧
      (MissingDistricts.append_csv ["r1", "r2"] ["r2", "r3"]).Nodup ∧
      (MissingDistricts.append_csv ["r2", "r3"] ["r1", "r2"]).Nodup ∧
      (MergeDistricts.mergeRows [⟨"s", "d", "1"⟩]
          [⟨"s", "d", "1"⟩, ⟨"s", "e", "2"⟩]).toFinset =
        ([⟨"s", "d", "1"⟩] : List MergeDistricts.GeoRow).toFinset ∪
          ([⟨"s", "d", "1"⟩, ⟨"s", "e", "2"⟩] : List MergeDistricts.GeoRow).toFinset ∧
      (MergeDistricts.mergeRows [⟨"s", "d", "1"⟩]
          [⟨"s", "d", "1"⟩, ⟨"s", "e", "2"⟩]).toFinset =
        (MergeDistricts.mergeRows [⟨"s", "d", "1"⟩, ⟨"s", "e", "2"⟩]
          [⟨"s", "d", "1"⟩]).toFinset ∧
      (MergeDistricts.mergeRows [⟨"s", "d", "1"⟩]
        [⟨"s", "d", "1"⟩, ⟨"s", "e", "2"⟩]).Nodup ∧
      (MergeDistricts.mergeRows [⟨"s", "d", "1"⟩, ⟨"s", "e", "2"⟩]
        [⟨"s", "d", "1"⟩]).Nodup :=
  c3_merge_order_independent ["r1", "r2"] ["r2", "r3"] [⟨"s", "d", "1"⟩]
    [⟨"s", "d", "1"⟩, ⟨"s", "e", "2"⟩] (by decide) (by decide) (by decide) (by decide)

/-- C4: each canonicalizer variant is idempotent and total: the strict
variant (`normalise` in rename_to_codes.py, `norm` in missing-districts.py:
lower-case then strip all non-`[a-z0-9]`) and the loose variant
(`canonical` in district-match.py: lower-case, `&` → `and`, collapse
whitespace), for every input string including the empty one. -/
theorem c4_canonicalizers_idempotent (s : String) :
    RenameToCodes.normalise (RenameToCodes.normalise s) = RenameToCodes.normalise s ∧
      MissingDistricts.norm (MissingDistricts.norm s) = MissingDistricts.norm s ∧
      DistrictMatch.canonical (DistrictMatch.canonical s) = DistrictMatch.canonical s :=
  ⟨strict_canon_idem s,
    by rw [norm_eq_normalise, norm_eq_normalise]; exact strict_canon_idem s,
    canonical_idem s⟩

/-- C5 counterexample: at threshold `t = 0` with the pool `["xy"]` and
query `"ab"`, the best (and only) candidate scores `0 ≥ t`, yet both
`best_match` and `best_fuzzy_match` accept nothing — the loop only records
a candidate on a strictly positive improvement over the initial best score
`0.0`, so the claim fails for non-positive thresholds. -/
theorem c5_threshold_cex :
    ratioStr "ab" "xy" = 0 ∧
      MissingDistricts.best_match "ab" ["xy"] 0 = (none, 0) ∧
      RenameToCodes.best_fuzzy_match "ab" ["xy"] 0 = none := by
  decide

/-- C5 (amended: for every positive threshold `t`): the matchers accept
their best candidate (the first pool element attaining the best score)
exactly when that best score is `≥ t` — the threshold is inclusive — and a
best score `< t` yields no accepted match, the score still being
reported by `best_match`. -/
theorem c5_threshold_inclusive (q : String) (pool : List String) (t : ℚ) (ht : 0 < t) :
    MissingDistricts.best_match q pool t =
        (if t ≤ poolBest q pool then firstTop q pool else none, poolBest q pool) ∧
      RenameToCodes.best_fuzzy_match q pool t =
        (if t ≤ poolBest q pool then firstTop q pool else none) :=
  ⟨best_match_eq q pool t ht, best_fuzzy_match_eq q pool t ht⟩

/-- Witness for C5 at the exact boundary: `mysore` vs pool `["mysuru"]`
scores exactly 2/3, and threshold 2/3 accepts it (inclusive). -/
theorem c5_threshold_inclusive_witness :
    MissingDistricts.best_match "mysore" ["mysuru"] (mkRat 2 3) =
        (some "mysuru", mkRat 2 3) ∧
      RenameToCodes.best_fuzzy_match "mysore" ["mysuru"] (mkRat 2 3) = some "mysuru" := by
  have h := c5_threshold_inclusive "mysore" ["mysuru"] (mkRat 2 3) (by decide)
  exact ⟨h.1.trans (by decide), h.2.trans (by decide)⟩

/-- C6 counterexample: with query `"ab"` and pool `["cd", "dc"]` the two
candidates tie for the maximum score (both 0), yet the selection loop
returns no candidate at all instead of the first one (`"cd"`): a tie at
score 0 never displaces the initial `best = None`. -/
theorem c6_tie_cex :
    ratioStr "ab" "cd" = 0 ∧ ratioStr "ab" "dc" = 0 ∧
      (scanBest "ab" ["cd", "dc"]).1 = none ∧
      MissingDistricts.best_match "ab" ["cd", "dc"] 0 = (none, 0) := by
  decide

/-- C6 (amended: pools whose maximum similarity is positive): the selection
loop shared by `best_match` and `best_fuzzy_match` returns the first
candidate in iteration order attaining the maximum score — a later
candidate whose score merely equals the current best never displaces an
earlier one — together with that maximum score. -/
theorem c6_first_max_selected (q : String) (pool : List String)
    (h : 0 < poolBest q pool) :
    (scanBest q pool).1 = firstTop q pool ∧ (scanBest q pool).2 = poolBest q pool :=
  ⟨scanBest_fst q pool h, scanBest_snd q pool⟩

/-- Witness for C6: `"ax"` and `"ay"` both score 1/2 against `"ab"`; the
first one is selected. -/
theorem c6_first_max_selected_witness :
    (scanBest "ab" ["ax", "ay"]).1 = some "ax" ∧
      (scanBest "ab" ["ax", "ay"]).2 = mkRat 1 2 := by
  have h := c6_first_max_selected "ab" ["ax", "ay"] (by decide)
  exact ⟨h.1.trans (by decide), h.2.trans (by decide)⟩

/-- C7 counterexample: in rename_to_codes.py a code-book row with a
non-numeric state code aborts the load (`astype(int)` raises), instead of
being dropped with a count as the claim states for every loader. -/
theorem c7_nonnumeric_cex :
    RenameToCodes.load_codes [⟨"Foo", "X", "ab", "01"⟩] =
      .error "invalid literal for int()" := rfl

/-- C7 (amended): in missing-districts.py a row whose state or district
code fails the `str.isdigit` mask is silently dropped — removing it does
not change the loaded code book, and no count of dropped rows is kept —
while rename_to_codes.py aborts the load exactly when a code field is not
a valid Python integer literal (`astype(int)` raises).  The two notions
differ: a row `b2` with a signed code such as `"-1"` fails the digit mask
(missing-districts drops it) yet `int()` converts it, so
rename_to_codes.py loads it successfully. -/
theorem c7_nonnumeric_row_handling (l1 l2 : List CodeRow) (b b2 : CodeRow) (z w : Int)
    (hb : MissingDistricts.rowDigits b = false)
    (hbad : parsePyInt? b.state_code = none ∨ parsePyInt? b.district_code = none)
    (hb2 : MissingDistricts.rowDigits b2 = false)
    (hs2 : parsePyInt? b2.state_code = some z)
    (hd2 : parsePyInt? b2.district_code = some w) :
    MissingDistricts.load_codes (l1 ++ b :: l2) = MissingDistricts.load_codes (l1 ++ l2) ∧
      RenameToCodes.load_codes (l1 ++ b :: l2) = .error "invalid literal for int()" ∧
      MissingDistricts.load_codes [b2] = [] ∧
      RenameToCodes.load_codes [b2] =
        .ok (RenameToCodes.buildMaps
          [{ b2 with state_code := fmt02i z, district_code := fmt02i w }]) :=
  ⟨mdload_drop_bad l1 l2 b hb,
    rtload_error l1 l2 b (padRow?_none_of_parse_fail b hbad),
    mdload_singleton_dropped b2 hb2,
    rtload_singleton_ok b2 z w hs2 hd2⟩

/-- Witness for C7: the row with code `"ab"` is dropped by one loader and
aborts the other, while the signed-code row `"-1"` is dropped by
missing-districts but loaded (as `"-1"`) by rename_to_codes. -/
theorem c7_nonnumeric_row_handling_witness :
    MissingDistricts.load_codes [⟨"Foo", "X", "1", "2"⟩, ⟨"Bar", "Y", "ab", "3"⟩] =
        MissingDistricts.load_codes [⟨"Foo", "X", "1", "2"⟩] ∧
      RenameToCodes.load_codes [⟨"Foo", "X", "1", "2"⟩, ⟨"Bar", "Y", "ab", "3"⟩] =
        .error "invalid literal for int()" ∧
      MissingDistricts.load_codes [⟨"Neg", "Z", "-1", "2"⟩] = [] ∧
      RenameToCodes.load_codes [⟨"Neg", "Z", "-1", "2"⟩] =
        .ok (RenameToCodes.buildMaps [⟨"Neg", "Z", "-1", "02"⟩]) := by
  have h := c7_nonnumeric_row_handling [⟨"Foo", "X", "1", "2"⟩] [] ⟨"Bar", "Y", "ab", "3"⟩
    ⟨"Neg", "Z", "-1", "2"⟩ (-1) 2 (by decide) (Or.inl (by decide)) (by decide)
    (by decide) (by decide)
  refine ⟨h.1, h.2.1, h.2.2.1, h.2.2.2.trans ?_⟩
  rfl

/-- C8 counterexample: the strict canonicalizer performs no ampersand
replacement: `normalise "A&N Island"` is `"anisland"`, not the claim's
`"anandnisland"`, and differs from the spec's step list (which yields
`"aandnisland"`). -/
theorem c8_ampersand_cex :
    RenameToCodes.normalise "A&N Island" = "anisland" ∧
      specStrictCanon "A&N Island" = "aandnisland" ∧
      RenameToCodes.normalise "A&N Island" ≠ specStrictCanon "A&N Island" ∧
      RenameToCodes.normalise "A&N Island" ≠ "anandnisland" ∧
      MissingDistricts.norm "A&N Island" ≠ "anandnisland" := by
  decide

/-- C8 (amended): the strict canonicalizer used for code-book matching
lower-cases its input and then strips every character that is not an ASCII
letter or digit, with no ampersand replacement (that step belongs only to
the loose canonicalizer of district-match.py); both `normalise` and `norm`
agree with this step list for every input. -/
theorem c8_strict_canon_steps (s : String) :
    RenameToCodes.normalise s = specStrictNoAmp s ∧
      MissingDistricts.norm s = specStrictNoAmp s :=
  ⟨normalise_eq_specNoAmp s, (norm_eq_normalise s).trans (normalise_eq_specNoAmp s)⟩

/-- C9: when `load_codes` of rename_to_codes.py succeeds, the state map
binds each canonical state name to the code of the FIRST row carrying that
name (`setdefault`), while the district map binds each
`(state_code, canonical district name)` key to the code of the LAST such
row (plain dict assignment overwrites). -/
theorem c9_first_state_last_district (rows prs : List CodeRow)
    (sm : List (String × String)) (dm : List ((String × String) × String))
    (hp : RenameToCodes.padRows? rows = some prs)
    (h : RenameToCodes.load_codes rows = .ok (sm, dm)) :
    (∀ k, alookup sm k =
        (prs.find? fun r => decide (RenameToCodes.normalise r.state_name = k)).map
          (·.state_code)) ∧
      (∀ k, alookup dm k =
        (prs.reverse.find? fun r =>
          decide ((r.state_code, RenameToCodes.normalise r.district_name) = k)).map
          (·.district_code)) := by
  unfold RenameToCodes.load_codes at h
  rw [hp] at h
  simp only [Except.ok.injEq] at h
  unfold RenameToCodes.buildMaps at h
  rw [foldl_prod (fun m r => setdefault m (RenameToCodes.normalise r.state_name) r.state_code)
    (fun m r => dSet m (r.state_code, RenameToCodes.normalise r.district_name) r.district_code)
    prs [] []] at h
  have hsm : prs.foldl
      (fun m r => setdefault m (RenameToCodes.normalise r.state_name) r.state_code) [] = sm :=
    congrArg Prod.fst h
  have hdm : prs.foldl
      (fun m r => dSet m (r.state_code, RenameToCodes.normalise r.district_name)
        r.district_code) [] = dm :=
    congrArg Prod.snd h
  constructor
  · intro k
    rw [← hsm]
    rw [alookup_foldl_setdefault (fun r => RenameToCodes.normalise r.state_name)
      (fun r => r.state_code) prs [] k]
    rfl
  · intro k
    rw [← hdm]
    rw [alookup_foldl_dSet
      (fun r => (r.state_code, RenameToCodes.normalise r.district_name))
      (fun r => r.district_code) prs [] k]
    cases prs.reverse.find? fun r =>
      decide ((r.state_code, RenameToCodes.normalise r.district_name) = k) <;> rfl

/-- Witness for C9: two rows share the canonical state name `foo` with
different codes (first wins: `01`), and two rows share the district key
`("02", "x")` with different codes (last wins: `07`). -/
theorem c9_first_state_last_district_witness :
    alookup [("foo", "01"), ("bar", "02")] "foo" = some "01" ∧
      alookup [(("01", "x"), "01"), (("02", "x"), "07")] ("02", "x") = some "07" := by
  have h := c9_first_state_last_district
    [⟨"Foo", "X", "1", "1"⟩, ⟨"Foo", "X", "2", "5"⟩, ⟨"Bar", "X", "2", "7"⟩]
    [⟨"Foo", "X", "01", "01"⟩, ⟨"Foo", "X", "02", "05"⟩, ⟨"Bar", "X", "02", "07"⟩]
    [("foo", "01"), ("bar", "02")] [(("01", "x"), "01"), (("02", "x"), "07")]
    (by rfl) (by rfl)
  exact ⟨(h.1 "foo").trans (by decide), (h.2 ("02", "x")).trans (by decide)⟩

/-- C10 counterexample: a row whose state code field does not parse as an
integer (`pad` returns `None`) crashes the date-coding pass (`root / None`
raises `TypeError`), so that row is assigned no label at all — the claim's
universal labelling fails on such input. -/
theorem c10_unpaddable_cex :
    CodingDistricts.processRows [] [⟨"xx", "01", some "2020-01-01"⟩] =
      .error "TypeError: unsupported operand type for /" := rfl

/-- C10 (amended: rows whose code fields pad successfully, i.e. whenever
the pass completes): every input row is assigned exactly one
`Auspicious_date` label; the label is `missing` iff the district file for
the row's padded `(state_code, district_code)` is absent, `1` iff the file
exists and the row's ISO date is in its date set, and `0` otherwise; the
counts of ones, zeros and missings partition the total row count, and the
missing-file counter agrees with the number of `missing` labels. -/
theorem c10_label_partition (files : CodingDistricts.FileMap)
    (rows : List CodingDistricts.DateRow) (labels : List CodingDistricts.Label)
    (miss : Nat) (h : CodingDistricts.processRows files rows = .ok (labels, miss)) :
    labels.length = rows.length ∧
      miss = labels.countP (fun l => decide (l = .missing)) ∧
      labels.countP (fun l => decide (l = .one)) +
          labels.countP (fun l => decide (l = .zero)) +
          labels.countP (fun l => decide (l = .missing)) = labels.length ∧
      ∀ (i : Nat) (hi : i < rows.length) (hl : i < labels.length),
        (labels.get ⟨i, hl⟩ = .missing ↔
          CodingDistricts.rowFile files (rows.get ⟨i, hi⟩) = none) ∧
        (labels.get ⟨i, hl⟩ = .one ↔
          ∃ ds, CodingDistricts.rowFile files (rows.get ⟨i, hi⟩) = some ds ∧
            CodingDistricts.isoHit (rows.get ⟨i, hi⟩) ds = true) ∧
        (labels.get ⟨i, hl⟩ = .zero ↔
          ∃ ds, CodingDistricts.rowFile files (rows.get ⟨i, hi⟩) = some ds ∧
            CodingDistricts.isoHit (rows.get ⟨i, hi⟩) ds = false) :=
  processRows_spec files rows labels miss h

/-- Witness for C10 on a three-row run: labels `[1, 0, missing]`, with the
missing-file counter equal to the count of `missing` labels. -/
theorem c10_label_partition_witness :
    CodingDistricts.processRows [(("01", "02"), ["2020-01-01"])]
        [⟨"1", "2", some "2020-01-01"⟩, ⟨"1", "2", some "2021-05-05"⟩,
          ⟨"1", "3", some "2020-01-01"⟩] = .ok ([.one, .zero, .missing], 1) ∧
      (1 : Nat) = ([CodingDistricts.Label.one, .zero, .missing] : List _).countP
        (fun l => decide (l = .missing)) := by
  have h := c10_label_partition [(("01", "02"), ["2020-01-01"])]
    [⟨"1", "2", some "2020-01-01"⟩, ⟨"1", "2", some "2021-05-05"⟩,
      ⟨"1", "3", some "2020-01-01"⟩]
    [.one, .zero, .missing] 1 (by rfl)
  exact ⟨by rfl, h.2.1⟩

end ReligionIndia
